import Mathlib

/-!
Verification development for the nordstream2 repository.

Part A embeds, from `src/src/ns2/nordstream.py`, the pure logic of the CLI
wrapper: path formatting (`YaraScannerCLI.get_rule_path`, `Config.get_rule_base`),
path validation (`YaraScanner.validate_paths`), and the exception-handler
control flow of `YaraScannerCLI.run`.  Filesystem queries (`os.path.isfile`,
`os.path.isdir`, `os.getcwd`) are abstracted as an explicit read-only
filesystem view, and POSIX semantics of `os.path.isabs` / `os.path.join`
are spelled out.

Part B models the signature-matching engine that the spec describes.  The
repository delegates compilation and matching to the external `yara` library,
so the engine itself is not code under `src/`; following the spec, the engine
is modelled from the spec's own component design (sections 3, 4.1-4.3, 5, 7).
-/

/-- Read-only view of the filesystem facts the Python code queries:
`os.path.isfile`, `os.path.isdir` and `os.getcwd()`. -/
structure Fs where
  isfile : String → Bool
  isdir : String → Bool
  cwd : String

/-- Python `str.endswith`, spelled out over the character list so that it
evaluates by kernel reduction. -/
def strEndsWith (s suffix : String) : Bool :=
  decide (suffix.toList.length ≤ s.toList.length) &&
  decide (s.toList.drop (s.toList.length - suffix.toList.length) = suffix.toList)

/-- POSIX `os.path.isabs`: a path is absolute when it starts with a slash. -/
def isAbs (p : String) : Bool :=
  match p.toList with
  | '/' :: _ => true
  | _ => false

/-- POSIX `os.path.join` on two components: the right component wins when it
is absolute; otherwise it is appended with a separating slash unless the left
component is empty or already ends in a slash. -/
def pyJoin (a b : String) : String :=
  if isAbs b then b
  else if a = "" then b
  else if strEndsWith a "/" then a ++ b
  else a ++ "/" ++ b

/-- Embedding of `Config.get_rule_base` (nordstream.py lines 26-48): look for
the directory `yara_rules` in the current directory, then in the parent of the
working directory, then in the grandparent; return `""` when absent. -/
def getRuleBase (fs : Fs) : String :=
  if fs.isdir "yara_rules" then "yara_rules"
  else
    let parentDir := pyJoin fs.cwd ".."
    let ruleBase1 := pyJoin parentDir "yara_rules"
    if fs.isdir ruleBase1 then ruleBase1
    else
      let grandparentDir := pyJoin parentDir ".."
      let ruleBase2 := pyJoin grandparentDir "yara_rules"
      if fs.isdir ruleBase2 then ruleBase2
      else ""

/-- Embedding of `YaraScannerCLI.get_rule_path` (nordstream.py lines 141-158):
append ".yar" when the name ends in neither ".yar" nor ".yara"; return the
result unchanged when absolute, otherwise join it onto the rule base directory
detected by `Config`. -/
def getRulePath (fs : Fs) (rule_file : String) : String :=
  let rule_file1 :=
    if !strEndsWith rule_file ".yar" && !strEndsWith rule_file ".yara" then
      rule_file ++ ".yar"
    else rule_file
  if isAbs rule_file1 then rule_file1
  else pyJoin (getRuleBase fs) rule_file1

/-- Python exceptions that flow through `YaraScanner` / `YaraScannerCLI`. -/
inductive PyExc where
  | fileNotFound (msg : String)
  | yaraSyntaxError (msg : String)
  | yaraError (msg : String)
  | nameError (name : String)
  | otherExc (msg : String)
deriving DecidableEq, Repr

/-- Fields of a `YaraScanner` instance (nordstream.py lines 61-64); the yara
handle held in `compiled_rule` is abstracted to an `Option Unit`. -/
structure ScannerState where
  rule_path : String
  file_to_scan : String
  compiled_rule : Option Unit
deriving DecidableEq, Repr

/-- Embedding of `YaraScanner.validate_paths` (nordstream.py lines 66-76):
raise `FileNotFoundError` when `rule_path` is not an existing file, else when
`file_to_scan` is not an existing file; the method only reads the scanner's
fields, so the state is returned as the body leaves it. -/
def validate_paths (fs : Fs) (st : ScannerState) : Except PyExc Unit × ScannerState :=
  if !fs.isfile st.rule_path then
    (.error (.fileNotFound ("Rule file not found: " ++ st.rule_path)), st)
  else if !fs.isfile st.file_to_scan then
    (.error (.fileNotFound ("File to scan not found: " ++ st.file_to_scan)), st)
  else
    (.ok (), st)

/-- Python local-variable lookup: produce the bound value, or raise
`NameError` when the name is unbound in the enclosing scope. -/
def lookupVar (env : List (String × String)) (x : String) : Except PyExc String :=
  match env.find? (fun p => p.1 = x) with
  | some p => .ok p.2
  | none => .error (.nameError x)

/-- Embedding of the two `except` clauses of `YaraScannerCLI.run`
(nordstream.py lines 178-181).  The `FileNotFoundError` clause binds the
exception as `e` and logs it.  The `yara.SyntaxError` clause has no `as`
binding, yet its f-string reads the name `e`, which Python resolves against
the enclosing local scope at run time; an unbound `e` raises `NameError`.
Any other exception is unhandled and propagates. -/
def runHandlers (env : List (String × String)) (exc : PyExc) : Except PyExc (List String) :=
  match exc with
  | .fileNotFound msg => .ok ["error: " ++ msg]
  | .yaraSyntaxError _ =>
      match lookupVar env "e" with
      | .ok v => .ok ["error: An unexpected error occurred: " ++ v]
      | .error exc2 => .error exc2
  | e => .error e

/-- Local variables of `YaraScannerCLI.run` that are bound before
`compile_rule` is called: `rule_path`, `file_to_scan`, `scanner`.  The name
`e` is never bound in `run`'s own scope (the `as e` of the first handler is
scoped to that handler and cleared on exit). -/
def runLocals (rule_path file_to_scan : String) : List (String × String) :=
  [("rule_path", rule_path), ("file_to_scan", file_to_scan), ("scanner", "YaraScanner")]

/-- Embedding of `YaraScannerCLI.run` (nordstream.py lines 160-181).  The
outcomes of the calls into the external yara library (`compile_rule`,
`scan_file`) are passed in as parameters; `validate_paths` is evaluated
against the filesystem view.  `scanOutcome`'s payload records whether any
rule matched. -/
def runModel (fs : Fs) (ruleArg fileArg : String)
    (compileOutcome : Except PyExc Unit) (scanOutcome : Except PyExc Bool) :
    Except PyExc (List String) :=
  let rule_path := getRulePath fs ruleArg
  let file_to_scan := fileArg
  let env := runLocals rule_path file_to_scan
  let tryResult : Except PyExc (List String) :=
    match (validate_paths fs ⟨rule_path, file_to_scan, none⟩).1 with
    | .error exc => .error exc
    | .ok () =>
      match compileOutcome with
      | .error exc => .error exc
      | .ok () =>
        match scanOutcome with
        | .error exc => .error exc
        | .ok b =>
            if b then .ok ["success: YARA rule matched!", "info: matches"]
            else .ok ["warning: No matches found."]
  match tryResult with
  | .ok logs => .ok logs
  | .error exc => runHandlers env exc

/-! Part B: the matching engine, modelled from the spec. -/

/-- Modelled from the spec: the Pattern Compiler's error cases (spec 4.1, 7):
a malformed hex token, or a bounded-range wildcard gap with min > max. -/
inductive PatternSyntaxError where
  | malformedHexToken (tok : String)
  | invertedRange (lo hi : Nat)
deriving DecidableEq, Repr

/-- Modelled from the spec: condition-compilation errors (spec 4.2, 7);
`unknownPattern` is `UnknownPatternError`, the subtype of
`ConditionSyntaxError` raised on an undefined pattern-reference name. -/
inductive CondSyntaxError where
  | unknownPattern (name : String)
deriving DecidableEq, Repr

/-- Modelled from the spec: errors of the whole `compileRules` call (spec 6, 7). -/
inductive CompileError where
  | patternError (ruleName patName : String) (e : PatternSyntaxError)
  | conditionError (ruleName : String) (e : CondSyntaxError)
deriving DecidableEq, Repr

/-- Modelled from the spec: rule-scoped evaluation errors (spec 4.3, 7):
`@name` with zero match occurrences. -/
inductive EvalError where
  | undefinedOffset (name : String)
deriving DecidableEq, Repr

/-- Modelled from the spec (4.1): a compiled wildcarded-hex token: a fixed
byte, a single-byte wildcard, or a bounded-range wildcard gap. -/
inductive HexTok where
  | fixed (b : Nat)
  | wild
  | gap (lo hi : Nat)
deriving DecidableEq, Repr

def isHexDigitChar (c : Char) : Bool :=
  c.isDigit || ('a' ≤ c && c ≤ 'f') || ('A' ≤ c && c ≤ 'F')

def hexVal (c : Char) : Nat :=
  if c.isDigit then c.toNat - 48
  else if 'a' ≤ c && c ≤ 'f' then c.toNat - 87
  else c.toNat - 55

def decDigitsVal (cs : List Char) : Nat :=
  cs.foldl (fun acc c => 10 * acc + (c.toNat - 48)) 0

/-- Parse the inside of a bounded-range gap token "[lo-hi]"; fail with
`invertedRange` when the bounds are inverted, else `malformedHexToken`. -/
def parseGapBody (tok : String) (cs : List Char) : Except PatternSyntaxError HexTok :=
  let lo := cs.takeWhile (fun c => c ≠ '-')
  let rest := cs.dropWhile (fun c => c ≠ '-')
  match rest with
  | '-' :: hi =>
      if lo ≠ [] && hi ≠ [] && lo.all Char.isDigit && hi.all Char.isDigit then
        let m := decDigitsVal lo
        let mm := decDigitsVal hi
        if mm < m then .error (.invertedRange m mm) else .ok (.gap m mm)
      else .error (.malformedHexToken tok)
  | _ => .error (.malformedHexToken tok)

/-- Modelled from the spec (4.1): parse one wildcarded-hex token: "??" is a
single-byte wildcard, two hex digits are a fixed byte, "[lo-hi]" is a
bounded-range gap; anything else is a malformed hex token. -/
def parseHexToken (tok : String) : Except PatternSyntaxError HexTok :=
  match tok.toList with
  | ['?', '?'] => .ok .wild
  | [c1, c2] =>
      if isHexDigitChar c1 && isHexDigitChar c2 then
        .ok (.fixed (16 * hexVal c1 + hexVal c2))
      else .error (.malformedHexToken tok)
  | '[' :: rest =>
      if rest ≠ [] && rest.getLast? = some ']' then parseGapBody tok rest.dropLast
      else .error (.malformedHexToken tok)
  | _ => .error (.malformedHexToken tok)

/-- Modelled from the spec (3): pattern modifiers. -/
structure PatternMods where
  caseInsensitive : Bool
  fullWord : Bool
  matchOnce : Bool
deriving DecidableEq, Repr

/-- Modelled from the spec (4.1): source form of a pattern: literal bytes or a
wildcarded-hex token sequence.  Regular-expression patterns are compiled to an
external automaton per the spec and lie outside the modelled fragment. -/
inductive PatternSrc where
  | literal (payload : List Nat) (mods : PatternMods)
  | hexSrc (tokens : List String) (mods : PatternMods)
deriving DecidableEq, Repr

/-- Modelled from the spec (4.1): the compiled matcher representation. -/
inductive Matcher where
  | literalM (payload : List Nat) (caseInsensitive fullWord : Bool)
  | hexM (toks : List HexTok)
deriving DecidableEq, Repr

structure CompiledPattern where
  name : String
  matcher : Matcher
  matchOnce : Bool
deriving DecidableEq, Repr

def compileHexToks : List String → Except PatternSyntaxError (List HexTok)
  | [] => .ok []
  | t :: ts =>
    match parseHexToken t with
    | .error e => .error e
    | .ok tk =>
      match compileHexToks ts with
      | .error e => .error e
      | .ok tks => .ok (tk :: tks)

/-- Modelled from the spec (4.1): `compile(patternSource)`: pure function from
pattern source to compiled matcher or `PatternSyntaxError`; the
case-insensitive modifier normalizes comparison, not storage. -/
def compilePattern (name : String) (src : PatternSrc) :
    Except PatternSyntaxError CompiledPattern :=
  match src with
  | .literal payload mods =>
      .ok ⟨name, .literalM payload mods.caseInsensitive mods.fullWord, mods.matchOnce⟩
  | .hexSrc tokens mods =>
      match compileHexToks tokens with
      | .error e => .error e
      | .ok tks => .ok ⟨name, .hexM tks, mods.matchOnce⟩

/-- Modelled from the spec (4.2, 3): integer-valued condition terms: integer
literals, match counts, first-match offsets, arithmetic nodes. -/
inductive CondTerm where
  | intLit (n : Int)
  | countRef (name : String)
  | offsetRef (name : String)
  | add (t1 t2 : CondTerm)
  | sub (t1 t2 : CondTerm)
  | mul (t1 t2 : CondTerm)
deriving DecidableEq, Repr

inductive CmpOp where
  | eq | ne | lt | le | gt | ge
deriving DecidableEq, Repr

/-- Modelled from the spec (4.2, 3): the boolean condition expression tree. -/
inductive CondExpr where
  | boolLit (b : Bool)
  | matchedRef (name : String)
  | notE (e : CondExpr)
  | andE (e1 e2 : CondExpr)
  | orE (e1 e2 : CondExpr)
  | cmp (op : CmpOp) (t1 t2 : CondTerm)
deriving DecidableEq, Repr

def termRefNames : CondTerm → List String
  | .intLit _ => []
  | .countRef n => [n]
  | .offsetRef n => [n]
  | .add t1 t2 => termRefNames t1 ++ termRefNames t2
  | .sub t1 t2 => termRefNames t1 ++ termRefNames t2
  | .mul t1 t2 => termRefNames t1 ++ termRefNames t2

def condRefNames : CondExpr → List String
  | .boolLit _ => []
  | .matchedRef n => [n]
  | .notE e => condRefNames e
  | .andE e1 e2 => condRefNames e1 ++ condRefNames e2
  | .orE e1 e2 => condRefNames e1 ++ condRefNames e2
  | .cmp _ t1 t2 => termRefNames t1 ++ termRefNames t2

/-- Modelled from the spec (4.2): `compile(conditionSource, knownPatternNames)`:
every pattern-reference term is resolved against the known pattern names; an
undefined name fails with `UnknownPatternError`.  Condition text parsing is
abstracted: the source is taken at its abstract syntax. -/
def compileCondition (c : CondExpr) (known : List String) :
    Except CondSyntaxError CondExpr :=
  match (condRefNames c).find? (fun n => !known.contains n) with
  | some n => .error (.unknownPattern n)
  | none => .ok c

/-- Modelled from the spec (3, 6): a rule block of the source text: name,
tags, named pattern section, condition section. -/
structure RuleSrc where
  name : String
  tags : List String
  patterns : List (String × PatternSrc)
  cond : CondExpr
deriving DecidableEq, Repr

/-- Modelled from the spec (3): a compiled rule of the Rule Set. -/
structure Rule where
  name : String
  tags : List String
  patterns : List CompiledPattern
  cond : CondExpr
deriving DecidableEq, Repr

def compilePatterns (ruleName : String) :
    List (String × PatternSrc) → Except CompileError (List CompiledPattern)
  | [] => .ok []
  | (pn, src) :: rest =>
    match compilePattern pn src with
    | .error e => .error (.patternError ruleName pn e)
    | .ok cp =>
        match compilePatterns ruleName rest with
        | .error e => .error e
        | .ok cps => .ok (cp :: cps)

/-- Modelled from the spec (2, 4): compile one rule: the Pattern Compiler runs
over the pattern section, then the Condition Evaluator resolves the condition
against the declared pattern names. -/
def compileRule (r : RuleSrc) : Except CompileError Rule :=
  match compilePatterns r.name r.patterns with
  | .error e => .error e
  | .ok cps =>
    match compileCondition r.cond (r.patterns.map (fun p => p.1)) with
    | .error e => .error (.conditionError r.name e)
    | .ok c => .ok ⟨r.name, r.tags, cps, c⟩

/-- Modelled from the spec (6, 7): `compileRules(sourceText) -> RuleSet`, with
the default propagation policy: a compile-time error aborts the whole call. -/
def compileRules : List RuleSrc → Except CompileError (List Rule)
  | [] => .ok []
  | r :: rest =>
    match compileRule r with
    | .error e => .error e
    | .ok cr =>
      match compileRules rest with
      | .error e => .error e
      | .ok crs => .ok (cr :: crs)

def lowerByte (ci : Bool) (b : Nat) : Nat :=
  if ci then (if 65 ≤ b ∧ b ≤ 90 then b + 32 else b) else b

def isWordByte (b : Nat) : Bool :=
  decide ((48 ≤ b ∧ b ≤ 57) ∨ (65 ≤ b ∧ b ≤ 90) ∨ (97 ≤ b ∧ b ≤ 122) ∨ b = 95)

/-- Modelled from the spec (4.1): match a compiled hex token sequence against
a buffer suffix; produce the length of the shortest matched region. -/
def hexMatchLen : List HexTok → List Nat → Option Nat
  | [], _ => some 0
  | .fixed _ :: _, [] => none
  | .fixed b :: ts, c :: cs =>
      if c = b then (hexMatchLen ts cs).map (· + 1) else none
  | .wild :: _, [] => none
  | .wild :: ts, _ :: cs => (hexMatchLen ts cs).map (· + 1)
  | .gap lo hi :: ts, cs =>
      (List.range (hi + 1 - lo)).findSome? (fun j =>
        let k := lo + j
        if k ≤ cs.length then (hexMatchLen ts (cs.drop k)).map (· + k) else none)

/-- Modelled from the spec (4.1, 4.3): attempt a match of a compiled matcher
at byte offset `i` of the buffer, producing the matched region's length.
Case-insensitive matching lowers both sides at comparison time; full-word
matching requires non-word bytes (or the buffer edge) on both sides. -/
def matchLenAt (m : Matcher) (buf : List Nat) (i : Nat) : Option Nat :=
  match m with
  | .literalM payload ci fw =>
      let window := (buf.drop i).take payload.length
      if window.map (lowerByte ci) = payload.map (lowerByte ci) ∧
         window.length = payload.length then
        if fw then
          if (i = 0 ∨ isWordByte (buf.getD (i - 1) 0) = false) ∧
             (i + payload.length = buf.length ∨
              isWordByte (buf.getD (i + payload.length) 0) = false) then
            some payload.length
          else none
        else some payload.length
      else none
  | .hexM toks => hexMatchLen toks (buf.drop i)

/-- Modelled from the spec (4.3 step 1): every offset at which the pattern
matches, walking the buffer left to right (so the list ascends); the empty
buffer admits no occurrence (spec 3 invariant: occurrences lie within buffer
bounds). -/
def allOffsets (p : CompiledPattern) (buf : List Nat) : List Nat :=
  (List.range buf.length).filter (fun i => (matchLenAt p.matcher buf i).isSome)

/-- Modelled from the spec (4.3 step 1): the offsets of the recorded
occurrences: every occurrence, or only the first when the match-once modifier
is set. -/
def recordedOffsets (p : CompiledPattern) (buf : List Nat) : List Nat :=
  if p.matchOnce then (allOffsets p buf).take 1 else allOffsets p buf

/-- Modelled from the spec (4.3 step 2): the per-rule evaluation context: per
pattern name, the ordered offsets of its recorded occurrences; a name with
zero matches yields `[]` (count 0, boolean false). -/
def ctxOf (ps : List CompiledPattern) (buf : List Nat) : String → List Nat :=
  fun n =>
    match ps.find? (fun p => p.name = n) with
    | some p => recordedOffsets p buf
    | none => []

/-- Modelled from the spec (4.3 step 3): term evaluation; `@name` with zero
matches is undefined and raises `UndefinedOffsetError`. -/
def evalTerm (ctx : String → List Nat) : CondTerm → Except EvalError Int
  | .intLit n => .ok n
  | .countRef n => .ok ((ctx n).length : Int)
  | .offsetRef n =>
      match ctx n with
      | [] => .error (.undefinedOffset n)
      | o :: _ => .ok (o : Int)
  | .add t1 t2 => do
      let v1 ← evalTerm ctx t1
      let v2 ← evalTerm ctx t2
      .ok (v1 + v2)
  | .sub t1 t2 => do
      let v1 ← evalTerm ctx t1
      let v2 ← evalTerm ctx t2
      .ok (v1 - v2)
  | .mul t1 t2 => do
      let v1 ← evalTerm ctx t1
      let v2 ← evalTerm ctx t2
      .ok (v1 * v2)

def cmpEval (op : CmpOp) (v1 v2 : Int) : Bool :=
  match op with
  | .eq => decide (v1 = v2)
  | .ne => decide (v1 ≠ v2)
  | .lt => decide (v1 < v2)
  | .le => decide (v1 ≤ v2)
  | .gt => decide (v2 < v1)
  | .ge => decide (v2 ≤ v1)

/-- Modelled from the spec (4.2, 4.3): condition evaluation with standard
short-circuit semantics; the only run-time failure is `UndefinedOffsetError`
bubbling up from a term. -/
def evalCond (ctx : String → List Nat) : CondExpr → Except EvalError Bool
  | .boolLit b => .ok b
  | .matchedRef n => .ok (decide (0 < (ctx n).length))
  | .notE e => do
      let b ← evalCond ctx e
      .ok (!b)
  | .andE e1 e2 => do
      let b1 ← evalCond ctx e1
      if b1 then evalCond ctx e2 else .ok false
  | .orE e1 e2 => do
      let b1 ← evalCond ctx e1
      if b1 then .ok true else evalCond ctx e2
  | .cmp op t1 t2 => do
      let v1 ← evalTerm ctx t1
      let v2 ← evalTerm ctx t2
      .ok (cmpEval op v1 v2)

/-- Modelled from the spec (3): a match occurrence: pattern name, offset and
length of the matched region, plus the pattern's declaration index, which the
ordering guarantee of 4.3 refers to. -/
structure Occ where
  patName : String
  patIdx : Nat
  offset : Nat
  length : Nat
deriving DecidableEq, Repr

/-- Occurrences recorded at offset `i`, in pattern declaration order, with
declaration indices counted from `j`. -/
def occsAtFrom (buf : List Nat) (i : Nat) : Nat → List CompiledPattern → List Occ
  | _, [] => []
  | j, p :: ps =>
      (if i ∈ recordedOffsets p buf then
        [⟨p.name, j, i, (matchLenAt p.matcher buf i).getD 0⟩]
      else []) ++ occsAtFrom buf i (j + 1) ps

def concatMapOffsets (f : Nat → List Occ) : List Nat → List Occ
  | [] => []
  | i :: is => f i ++ concatMapOffsets f is

/-- Modelled from the spec (4.3): the rule's recorded occurrences, ordered by
ascending offset and then by pattern declaration order. -/
def ruleOccs (ps : List CompiledPattern) (buf : List Nat) : List Occ :=
  concatMapOffsets (fun i => occsAtFrom buf i 0 ps) (List.range buf.length)

structure RuleMatch where
  ruleName : String
  tags : List String
  occs : List Occ
deriving DecidableEq, Repr

inductive RuleOutcome where
  | matched (m : RuleMatch)
  | noMatch
  | errored (e : EvalError)
deriving DecidableEq, Repr

/-- Modelled from the spec (4.3): evaluate one rule against the buffer: the
rule matches when its condition evaluates to true; a rule-scoped evaluation
error makes the rule "errored", never aborting anything else. -/
def scanRule (r : Rule) (buf : List Nat) : RuleOutcome :=
  match evalCond (ctxOf r.patterns buf) r.cond with
  | .ok true => .matched ⟨r.name, r.tags, ruleOccs r.patterns buf⟩
  | .ok false => .noMatch
  | .error e => .errored e

def toMatch? : RuleOutcome → Option RuleMatch
  | .matched m => some m
  | _ => none

def toErr? (ruleName : String) : RuleOutcome → Option (String × EvalError)
  | .errored e => some (ruleName, e)
  | _ => none

/-- Modelled from the spec (4.3, 7): the ScanResult: the matched rules with
their evidence, plus the side list of per-rule errors. -/
structure ScanResult where
  matched : List RuleMatch
  errors : List (String × EvalError)
deriving DecidableEq, Repr

/-- Modelled from the spec (4.3): `scan(ruleSet, buffer)`: every rule is
evaluated independently; matched rules are reported in the rule set's declared
order; rule-scoped errors are collected alongside. -/
def scan (rs : List Rule) (buf : List Nat) : ScanResult :=
  { matched := rs.filterMap (fun r => toMatch? (scanRule r buf)),
    errors := rs.filterMap (fun r => toErr? r.name (scanRule r buf)) }

def defaultRule : Rule :=
  ⟨"", [], [], .boolLit false⟩

def lookupOutcome (i : Nat) : List (Nat × RuleOutcome) → Option RuleOutcome
  | [] => none
  | (j, o) :: tl => if j = i then some o else lookupOutcome i tl

/-- Modelled from the spec (5): rule evaluation under an explicit execution
schedule: per-rule outcomes are computed in schedule order (rules share no
mutable state), and the result is then assembled in the rule set's declared
order. -/
def scanSched (rs : List Rule) (buf : List Nat) (sched : List Nat) : ScanResult :=
  let tbl := sched.map (fun i => (i, scanRule (rs.getD i defaultRule) buf))
  { matched := (List.range rs.length).filterMap
      (fun i => (lookupOutcome i tbl).bind toMatch?),
    errors := (List.range rs.length).filterMap
      (fun i => (lookupOutcome i tbl).bind (toErr? (rs.getD i defaultRule).name)) }

/-! Theorems. -/

/-- Filesystem view with no files and no directories. -/
def fsEmpty : Fs :=
  ⟨fun _ => false, fun _ => false, "/cwd"⟩

/-- Filesystem view where every path is an existing file. -/
def fsAllFiles : Fs :=
  ⟨fun _ => true, fun _ => false, "/cwd"⟩

/-- C10: `YaraScanner.validate_paths` raises `FileNotFoundError` exactly when
`rule_path` is not an existing file or `file_to_scan` is not an existing file,
and in every case, success or error, it leaves the scanner's `rule_path`,
`file_to_scan` and `compiled_rule` fields unchanged. -/
theorem validate_paths_spec (fs : Fs) (st : ScannerState) :
    ((∃ msg, (validate_paths fs st).1 = .error (.fileNotFound msg)) ↔
      (fs.isfile st.rule_path = false ∨ fs.isfile st.file_to_scan = false)) ∧
    (validate_paths fs st).2 = st := by
  unfold validate_paths
  cases h1 : fs.isfile st.rule_path <;> cases h2 : fs.isfile st.file_to_scan <;> simp [h1, h2]

/-- C9: `YaraScannerCLI.get_rule_path` appends ".yar" exactly when the rule
name ends with neither ".yar" nor ".yara"; the (possibly extended) name is
returned unchanged when it is an absolute path, and is otherwise joined onto
the rule base directory detected by `Config`. -/
theorem get_rule_path_spec (fs : Fs) (r : String) :
    (strEndsWith r ".yar" = false → strEndsWith r ".yara" = false →
      getRulePath fs r =
        if isAbs (r ++ ".yar") then r ++ ".yar"
        else pyJoin (getRuleBase fs) (r ++ ".yar")) ∧
    (strEndsWith r ".yar" = true ∨ strEndsWith r ".yara" = true →
      getRulePath fs r = if isAbs r then r else pyJoin (getRuleBase fs) r) := by
  constructor
  · intro h1 h2
    simp [getRulePath, h1, h2]
  · intro h
    unfold getRulePath
    rcases h with h | h <;> simp [h]

theorem get_rule_path_spec_witness :
    getRulePath fsEmpty "myrule" =
      (if isAbs ("myrule" ++ ".yar") then "myrule" ++ ".yar"
       else pyJoin (getRuleBase fsEmpty) ("myrule" ++ ".yar")) ∧
    getRulePath fsEmpty "abs.yara" =
      (if isAbs "abs.yara" then "abs.yara" else pyJoin (getRuleBase fsEmpty) "abs.yara") :=
  ⟨(get_rule_path_spec fsEmpty "myrule").1 (by decide) (by decide),
   (get_rule_path_spec fsEmpty "abs.yara").2 (Or.inr (by decide))⟩

/-- C8: when `compile_rule` raises `yara.SyntaxError` during
`YaraScannerCLI.run` (so path validation passed and the yara compile step
failed), the `except yara.SyntaxError` handler references the name `e`, which
is unbound in that scope, so `run` raises `NameError` instead of logging the
syntax error. -/
theorem run_syntax_error_raises_name_error (fs : Fs) (ruleArg fileArg msg : String)
    (scanOutcome : Except PyExc Bool)
    (hrule : fs.isfile (getRulePath fs ruleArg) = true)
    (hfile : fs.isfile fileArg = true) :
    runModel fs ruleArg fileArg (.error (.yaraSyntaxError msg)) scanOutcome =
      .error (.nameError "e") := by
  unfold runModel validate_paths
  simp [hrule, hfile]
  rfl

theorem run_syntax_error_raises_name_error_witness :
    runModel fsAllFiles "r" "f" (.error (.yaraSyntaxError "bad")) (.ok false) =
      .error (.nameError "e") :=
  run_syntax_error_raises_name_error fsAllFiles "r" "f" "bad" (.ok false) rfl rfl

/-- A rule whose condition is the literal boolean true. -/
def ruleAlways : Rule :=
  ⟨"always", [], [], .boolLit true⟩

/-- A one-byte literal pattern named "a" (the byte 120, "x"). -/
def patA : CompiledPattern :=
  ⟨"a", .literalM [120] false false, false⟩

/-- A rule whose condition evaluates the first-match offset of pattern "a". -/
def ruleAt : Rule :=
  ⟨"at", [], [patA], .cmp .ge (.offsetRef "a") (.intLit 0)⟩

/-- Helper: a matched entry of a scan has exactly the shape built by
`scanRule`: the rule's name, tags and recorded occurrences. -/
theorem toMatch_scanRule_shape (r : Rule) (buf : List Nat) (m : RuleMatch)
    (h : toMatch? (scanRule r buf) = some m) :
    m = ⟨r.name, r.tags, ruleOccs r.patterns buf⟩ := by
  unfold scanRule at h
  rcases hev : evalCond (ctxOf r.patterns buf) r.cond with e | b
  · rw [hev] at h
    simp [toMatch?] at h
  · rw [hev] at h
    cases b
    · simp [toMatch?] at h
    · simp [toMatch?] at h
      exact h.symm

/-- C2: a rule whose compiled condition is the literal boolean true appears in
the ScanResult of every scan of every rule set containing it, whatever the
buffer's content. -/
theorem literal_true_rule_always_matches (rs : List Rule) (buf : List Nat) (r : Rule)
    (hmem : r ∈ rs) (hcond : r.cond = .boolLit true) :
    (⟨r.name, r.tags, ruleOccs r.patterns buf⟩ : RuleMatch) ∈ (scan rs buf).matched := by
  have h : toMatch? (scanRule r buf) = some ⟨r.name, r.tags, ruleOccs r.patterns buf⟩ := by
    simp [scanRule, hcond, evalCond, toMatch?]
  simp only [scan]
  exact List.mem_filterMap.mpr ⟨r, hmem, h⟩

theorem literal_true_rule_always_matches_witness :
    (⟨"always", [], ruleOccs [] [5, 6]⟩ : RuleMatch) ∈ (scan [ruleAlways] [5, 6]).matched :=
  literal_true_rule_always_matches [ruleAlways] [5, 6] ruleAlways (by simp) rfl

/-- C1 counterexample: the claim "for every rule set, scanning the empty
buffer returns an empty ScanResult with no errors" fails at this rule set:
the literal-true condition of `ruleAlways` matches the empty buffer, and the
offset reference of `ruleAt` reports a rule-scoped error there. -/
theorem scan_empty_buffer_claim_false :
    (scan [ruleAlways, ruleAt] []).matched ≠ [] ∧
    (scan [ruleAlways, ruleAt] []).errors ≠ [] := by
  decide

/-- C1 (amended): scanning the empty buffer never raises (`scan` is a total
function) and produces no MatchOccurrences: every rule records zero pattern
occurrences, and every matched entry carries an empty occurrence list. -/
theorem scan_empty_buffer_no_occurrences (rs : List Rule) :
    (∀ r ∈ rs, ruleOccs r.patterns [] = []) ∧
    (∀ m ∈ (scan rs ([] : List Nat)).matched, m.occs = []) := by
  constructor
  · intro r _
    rfl
  · intro m hm
    simp only [scan] at hm
    rcases List.mem_filterMap.mp hm with ⟨r, _, hsome⟩
    rw [toMatch_scanRule_shape r [] m hsome]
    rfl

theorem scan_empty_buffer_no_occurrences_witness :
    ruleOccs ruleAlways.patterns [] = [] ∧
    (⟨"always", [], []⟩ : RuleMatch).occs = [] :=
  ⟨(scan_empty_buffer_no_occurrences [ruleAlways]).1 ruleAlways (by simp),
   (scan_empty_buffer_no_occurrences [ruleAlways]).2 ⟨"always", [], []⟩ (by decide)⟩

/-- Helper: looking up a key in a table built by mapping over the schedule
returns that key's computed outcome, whenever the key is scheduled. -/
theorem lookupOutcome_map (g : Nat → RuleOutcome) (sched : List Nat) (i : Nat)
    (h : i ∈ sched) :
    lookupOutcome i (sched.map (fun j => (j, g j))) = some (g i) := by
  induction sched with
  | nil => cases h
  | cons j tl ih =>
    simp only [List.map_cons, lookupOutcome]
    by_cases hj : j = i
    · subst hj
      simp
    · rw [if_neg hj]
      rcases List.mem_cons.mp h with h1 | h1
      · exact absurd h1.symm hj
      · exact ih h1

/-- Helper: filtering-and-mapping a list through positional access equals
filtering-and-mapping the list itself. -/
theorem filterMap_range_getD {α β : Type} (d : α) (F : α → Option β) (l : List α) :
    (List.range l.length).filterMap (fun i => F (l.getD i d)) = l.filterMap F := by
  induction l with
  | nil => rfl
  | cons x tl ih =>
    rw [List.length_cons, List.range_succ_eq_map, List.filterMap_cons, List.filterMap_map]
    have hc : ((fun i => F ((x :: tl).getD i d)) ∘ Nat.succ) = fun i => F (tl.getD i d) := by
      funext i
      simp [List.getD_cons_succ]
    rw [hc, ih, List.getD_cons_zero, List.filterMap_cons]

/-- Helper: a schedule covering every rule index yields the canonical scan. -/
theorem scanSched_eq_scan (rs : List Rule) (buf : List Nat) (sched : List Nat)
    (h : ∀ i, i < rs.length → i ∈ sched) :
    scanSched rs buf sched = scan rs buf := by
  unfold scanSched scan
  simp only [ScanResult.mk.injEq]
  constructor
  · rw [List.filterMap_congr (g := fun i => toMatch? (scanRule (rs.getD i defaultRule) buf))]
    · exact filterMap_range_getD defaultRule (fun r => toMatch? (scanRule r buf)) rs
    · intro i hi
      rw [lookupOutcome_map (fun j => scanRule (rs.getD j defaultRule) buf) sched i
        (h i (List.mem_range.mp hi))]
      rfl
  · rw [List.filterMap_congr
      (g := fun i => toErr? (rs.getD i defaultRule).name (scanRule (rs.getD i defaultRule) buf))]
    · exact filterMap_range_getD defaultRule (fun r => toErr? r.name (scanRule r buf)) rs
    · intro i hi
      rw [lookupOutcome_map (fun j => scanRule (rs.getD j defaultRule) buf) sched i
        (h i (List.mem_range.mp hi))]
      rfl

/-- C3: scanning a fixed rule set and buffer is deterministic: two executions,
under any two execution schedules that each cover every rule, produce
identical ScanResults. -/
theorem scan_deterministic (rs : List Rule) (buf : List Nat) (s1 s2 : List Nat)
    (h1 : ∀ i, i < rs.length → i ∈ s1) (h2 : ∀ i, i < rs.length → i ∈ s2) :
    scanSched rs buf s1 = scanSched rs buf s2 := by
  rw [scanSched_eq_scan rs buf s1 h1, scanSched_eq_scan rs buf s2 h2]

theorem scan_deterministic_witness :
    scanSched [ruleAlways, ruleAt] [120] [1, 0] = scanSched [ruleAlways, ruleAt] [120] [0, 1, 1] :=
  scan_deterministic [ruleAlways, ruleAt] [120] [1, 0] [0, 1, 1]
    (by
      intro i hi
      simp only [List.length_cons, List.length_nil] at hi
      interval_cases i <;> simp)
    (by
      intro i hi
      simp only [List.length_cons, List.length_nil] at hi
      interval_cases i <;> simp)

/-- Helper: a token sequence containing an unparsable token fails to compile. -/
theorem compileHexToks_error (toks : List String) (t : String) (e : PatternSyntaxError)
    (ht : t ∈ toks) (he : parseHexToken t = .error e) :
    ∃ e2, compileHexToks toks = .error e2 := by
  induction toks with
  | nil => cases ht
  | cons t0 tl ih =>
    rcases List.mem_cons.mp ht with h | h
    · subst h
      exact ⟨e, by simp only [compileHexToks, he]⟩
    · cases hp : parseHexToken t0 with
      | error e0 =>
        exact ⟨e0, by simp only [compileHexToks, hp]⟩
      | ok tk =>
        rcases ih h with ⟨e2, h2⟩
        exact ⟨e2, by simp only [compileHexToks, hp, h2]⟩

/-- Helper: a pattern section containing an uncompilable pattern makes the
rule's pattern compilation fail with a pattern error. -/
theorem compilePatterns_error (ruleName : String) (ps : List (String × PatternSrc))
    (pname : String) (src : PatternSrc) (e : PatternSyntaxError)
    (hmem : (pname, src) ∈ ps) (hsrc : compilePattern pname src = .error e) :
    ∃ rn pn e2, compilePatterns ruleName ps = .error (.patternError rn pn e2) := by
  induction ps with
  | nil => cases hmem
  | cons hd tl ih =>
    rcases hd with ⟨pn0, s0⟩
    rcases List.mem_cons.mp hmem with h | h
    · injection h with h1 h2
      subst h1
      subst h2
      exact ⟨ruleName, pname, e, by simp [compilePatterns, hsrc]⟩
    · cases hp : compilePattern pn0 s0 with
      | error e0 => exact ⟨ruleName, pn0, e0, by simp [compilePatterns, hp]⟩
      | ok cp =>
        rcases ih h with ⟨rn, pn, e2, h2⟩
        exact ⟨rn, pn, e2, by simp only [compilePatterns, hp, h2]⟩

/-- C4: a wildcarded-hex pattern source containing a malformed hex token or a
bounded-range gap with inverted bounds (min > max) fails pattern compilation
with a `PatternSyntaxError`, and `compileRules` called on a rule containing
that pattern fails with a `PatternSyntaxError` as well. -/
theorem hex_pattern_error_fails_compilation (toks : List String) (mods : PatternMods)
    (t : String) (e : PatternSyntaxError) (pname : String) (r : RuleSrc)
    (ht : t ∈ toks) (he : parseHexToken t = .error e)
    (hp : (pname, PatternSrc.hexSrc toks mods) ∈ r.patterns) :
    (∃ e1, compilePattern pname (.hexSrc toks mods) = .error e1) ∧
    (∃ rn pn e2, compileRules [r] = .error (.patternError rn pn e2)) := by
  rcases compileHexToks_error toks t e ht he with ⟨e1, h1⟩
  have hpat : compilePattern pname (.hexSrc toks mods) = .error e1 := by
    simp only [compilePattern, h1]
  refine ⟨⟨e1, hpat⟩, ?_⟩
  rcases compilePatterns_error r.name r.patterns pname (.hexSrc toks mods) e1 hp hpat
    with ⟨rn, pn, e2, h2⟩
  exact ⟨rn, pn, e2, by simp only [compileRules, compileRule, h2]⟩

/-- A rule source whose only pattern is a hex pattern with an inverted-bound
range gap. -/
def badHexRuleSrc : RuleSrc :=
  ⟨"r1", [], [("h", .hexSrc ["4D", "[4-2]"] ⟨false, false, false⟩)], .boolLit true⟩

theorem hex_pattern_error_fails_compilation_witness :
    (∃ e1, compilePattern "h" (.hexSrc ["4D", "[4-2]"] ⟨false, false, false⟩) = .error e1) ∧
    (∃ rn pn e2, compileRules [badHexRuleSrc] = .error (.patternError rn pn e2)) :=
  hex_pattern_error_fails_compilation ["4D", "[4-2]"] ⟨false, false, false⟩ "[4-2]"
    (.invertedRange 4 2) "h" badHexRuleSrc (by simp) rfl (by simp [badHexRuleSrc])

/-- Helper: pattern compilation keeps the declared pattern name. -/
theorem compilePattern_name (pn : String) (src : PatternSrc) (cp : CompiledPattern)
    (h : compilePattern pn src = .ok cp) : cp.name = pn := by
  cases src with
  | literal payload mods =>
    simp only [compilePattern] at h
    injection h with h1
    rw [← h1]
  | hexSrc toks mods =>
    cases htk : compileHexToks toks with
    | error e =>
      simp only [compilePattern, htk] at h
      exact Except.noConfusion h
    | ok tks =>
      simp only [compilePattern, htk] at h
      injection h with h1
      rw [← h1]

/-- Helper: successful pattern compilation preserves the declared names, in
order. -/
theorem compilePatterns_names (ruleName : String) (ps : List (String × PatternSrc))
    (cps : List CompiledPattern) (h : compilePatterns ruleName ps = .ok cps) :
    cps.map CompiledPattern.name = ps.map Prod.fst := by
  induction ps generalizing cps with
  | nil =>
    simp only [compilePatterns] at h
    injection h with h1
    rw [← h1]
    rfl
  | cons hd tl ih =>
    rcases hd with ⟨pn0, s0⟩
    cases hp : compilePattern pn0 s0 with
    | error e0 =>
      simp only [compilePatterns, hp] at h
      exact Except.noConfusion h
    | ok cp =>
      cases hrest : compilePatterns ruleName tl with
      | error e =>
        simp only [compilePatterns, hp, hrest] at h
        exact Except.noConfusion h
      | ok cps0 =>
        simp only [compilePatterns, hp, hrest] at h
        injection h with h1
        rw [← h1, List.map_cons, List.map_cons, compilePattern_name pn0 s0 cp hp, ih cps0 hrest]

/-- C5: pattern-name resolution happens at compile time and only there: in
every rule produced by successful compilation, every name referenced in the
condition exists among the compiled patterns' names; an undefined name makes
the Condition Evaluator's compile step fail with `UnknownPatternError` (so
the rule's compilation fails); and condition evaluation can never fail on
name resolution: its only failure mode is the rule-scoped
`UndefinedOffsetError`. -/
theorem condition_names_resolved_at_compile_time (r : RuleSrc) :
    (∀ cr, compileRule r = .ok cr →
      ∀ n ∈ condRefNames cr.cond, n ∈ cr.patterns.map CompiledPattern.name) ∧
    (∀ n, n ∈ condRefNames r.cond → ¬ n ∈ r.patterns.map Prod.fst →
      (∃ n2, compileCondition r.cond (r.patterns.map Prod.fst) =
          .error (.unknownPattern n2) ∧ ¬ n2 ∈ r.patterns.map Prod.fst) ∧
      (∃ err, compileRule r = .error err)) ∧
    (∀ (c : CondExpr) (ctx : String → List Nat),
      (∃ b, evalCond ctx c = .ok b) ∨ (∃ n2, evalCond ctx c = .error (.undefinedOffset n2))) := by
  refine ⟨?_, ?_, ?_⟩
  · intro cr hcr n hn
    unfold compileRule at hcr
    cases hps : compilePatterns r.name r.patterns with
    | error e =>
      rw [hps] at hcr
      exact Except.noConfusion hcr
    | ok cps =>
      rw [hps] at hcr
      unfold compileCondition at hcr
      cases hf : (condRefNames r.cond).find? (fun n => !(r.patterns.map Prod.fst).contains n) with
      | some n0 =>
        rw [hf] at hcr
        exact Except.noConfusion hcr
      | none =>
        rw [hf] at hcr
        injection hcr with h1
        rw [← h1] at hn ⊢
        show n ∈ cps.map CompiledPattern.name
        rw [compilePatterns_names r.name r.patterns cps hps]
        have hcontains := List.find?_eq_none.mp hf n hn
        simpa using hcontains
  · intro n hn hnot
    cases hf : (condRefNames r.cond).find? (fun n => !(r.patterns.map Prod.fst).contains n) with
    | none =>
      exfalso
      have := List.find?_eq_none.mp hf n hn
      exact hnot (by simpa using this)
    | some n2 =>
      have hmem := List.find?_some hf
      have hn2 : ¬ n2 ∈ r.patterns.map Prod.fst := by simpa using hmem
      have hcond : compileCondition r.cond (r.patterns.map Prod.fst) =
          .error (.unknownPattern n2) := by
        simp only [compileCondition, hf]
      refine ⟨⟨n2, hcond, hn2⟩, ?_⟩
      unfold compileRule
      cases hps : compilePatterns r.name r.patterns with
      | error e => exact ⟨e, rfl⟩
      | ok cps =>
        rw [hcond]
        exact ⟨.conditionError r.name (.unknownPattern n2), rfl⟩
  · intro c ctx
    cases hev : evalCond ctx c with
    | error e =>
      cases e with
      | undefinedOffset n2 => exact .inr ⟨n2, rfl⟩
    | ok b => exact .inl ⟨b, rfl⟩

/-- A well-formed rule source: one literal pattern "a", condition "a". -/
def goodRuleSrc : RuleSrc :=
  ⟨"r5", [], [("a", .literal [97] ⟨false, false, false⟩)], .matchedRef "a"⟩

/-- The compiled form of `goodRuleSrc`. -/
def goodRuleCompiled : Rule :=
  ⟨"r5", [], [⟨"a", .literalM [97] false false, false⟩], .matchedRef "a"⟩

/-- A rule source whose condition references the undefined pattern name "b". -/
def unknownNameRuleSrc : RuleSrc :=
  ⟨"r5b", [], [("a", .literal [97] ⟨false, false, false⟩)], .matchedRef "b"⟩

/-- The evaluation context with zero recorded matches for every name. -/
def emptyCtx : String → List Nat :=
  fun _ => []

theorem condition_names_resolved_at_compile_time_witness :
    ("a" ∈ goodRuleCompiled.patterns.map CompiledPattern.name) ∧
    ((∃ n2, compileCondition unknownNameRuleSrc.cond (unknownNameRuleSrc.patterns.map Prod.fst) =
        .error (.unknownPattern n2) ∧ ¬ n2 ∈ unknownNameRuleSrc.patterns.map Prod.fst) ∧
      (∃ err, compileRule unknownNameRuleSrc = .error err)) ∧
    ((∃ b, evalCond emptyCtx (.matchedRef "a") = .ok b) ∨
      (∃ n2, evalCond emptyCtx (.matchedRef "a") = .error (.undefinedOffset n2))) :=
  ⟨(condition_names_resolved_at_compile_time goodRuleSrc).1 goodRuleCompiled rfl "a" (by decide),
   (condition_names_resolved_at_compile_time unknownNameRuleSrc).2.1 "b" (by decide) (by decide),
   (condition_names_resolved_at_compile_time goodRuleSrc).2.2 (.matchedRef "a") emptyCtx⟩

/-- C6: evaluating the term `@name` for a pattern with zero recorded match
occurrences produces an `UndefinedOffsetError`, and an evaluation error is
scoped to its rule alone: that rule is not matched, the error is reported
against that rule in the error list, and the matched results are exactly
those of scanning the remaining rules. -/
theorem undefined_offset_rule_scoped :
    (∀ (name : String) (ctx : String → List Nat), ctx name = [] →
      evalTerm ctx (.offsetRef name) = .error (.undefinedOffset name)) ∧
    (∀ (rs : List Rule) (buf : List Nat) (r : Rule) (e : EvalError),
      (rs.map Rule.name).Nodup → r ∈ rs →
      evalCond (ctxOf r.patterns buf) r.cond = .error e →
      (∀ m ∈ (scan rs buf).matched, m.ruleName ≠ r.name) ∧
      (r.name, e) ∈ (scan rs buf).errors ∧
      (scan rs buf).matched =
        (scan (rs.filter (fun r2 => decide (r2.name ≠ r.name))) buf).matched) := by
  constructor
  · intro name ctx h
    simp [evalTerm, h]
  · intro rs buf r e hnodup hmem hev
    have hout : scanRule r buf = .errored e := by
      simp [scanRule, hev]
    refine ⟨?_, ?_, ?_⟩
    · intro m hm hname
      simp only [scan] at hm
      rcases List.mem_filterMap.mp hm with ⟨r2, hr2, hsome⟩
      have hshape := toMatch_scanRule_shape r2 buf m hsome
      have hname2 : r2.name = r.name := by
        rw [hshape] at hname
        exact hname
      have heq : r2 = r := List.inj_on_of_nodup_map hnodup hr2 hmem hname2
      subst heq
      rw [hout] at hsome
      simp [toMatch?] at hsome
    · simp only [scan]
      refine List.mem_filterMap.mpr ⟨r, hmem, ?_⟩
      rw [hout]
      rfl
    · simp only [scan]
      rw [List.filterMap_filter]
      refine List.filterMap_congr ?_
      intro r2 hr2
      by_cases hn : r2.name = r.name
      · have heq : r2 = r := List.inj_on_of_nodup_map hnodup hr2 hmem hn
        subst heq
        rw [hout]
        simp [toMatch?]
      · simp [hn]

theorem undefined_offset_rule_scoped_witness :
    evalTerm emptyCtx (.offsetRef "a") = .error (.undefinedOffset "a") ∧
    ("at", EvalError.undefinedOffset "a") ∈ (scan [ruleAt, ruleAlways] []).errors ∧
    (scan [ruleAt, ruleAlways] []).matched =
      (scan ([ruleAt, ruleAlways].filter (fun r2 => decide (r2.name ≠ "at"))) []).matched :=
  ⟨undefined_offset_rule_scoped.1 "a" emptyCtx rfl,
   (undefined_offset_rule_scoped.2 [ruleAt, ruleAlways] [] ruleAt (.undefinedOffset "a")
      (by decide) (by decide) rfl).2.1,
   (undefined_offset_rule_scoped.2 [ruleAt, ruleAlways] [] ruleAt (.undefinedOffset "a")
      (by decide) (by decide) rfl).2.2⟩

/-- The ScanResult occurrence order of the spec: ascending byte offset, then
ascending pattern declaration index. -/
def occLe (o1 o2 : Occ) : Prop :=
  o1.offset < o2.offset ∨ (o1.offset = o2.offset ∧ o1.patIdx < o2.patIdx)

/-- Helper: occurrences collected at offset `i` all carry offset `i` and a
declaration index at least the starting index. -/
theorem mem_occsAtFrom (buf : List Nat) (i : Nat) (ps : List CompiledPattern) :
    ∀ (j : Nat), ∀ o ∈ occsAtFrom buf i j ps, o.offset = i ∧ j ≤ o.patIdx := by
  induction ps with
  | nil =>
    intro j o ho
    cases ho
  | cons p tl ih =>
    intro j o ho
    simp only [occsAtFrom] at ho
    rcases List.mem_append.mp ho with h | h
    · by_cases hc : i ∈ recordedOffsets p buf
      · rw [if_pos hc] at h
        have := List.mem_singleton.mp h
        subst this
        exact ⟨rfl, Nat.le_refl j⟩
      · rw [if_neg hc] at h
        cases h
    · rcases ih (j + 1) o h with ⟨h1, h2⟩
      exact ⟨h1, Nat.le_of_succ_le h2⟩

/-- Helper: occurrences collected at one offset have strictly increasing
pattern declaration indices. -/
theorem pairwise_occsAtFrom (buf : List Nat) (i : Nat) (ps : List CompiledPattern) :
    ∀ (j : Nat), (occsAtFrom buf i j ps).Pairwise (fun a b => a.patIdx < b.patIdx) := by
  induction ps with
  | nil =>
    intro j
    exact List.Pairwise.nil
  | cons p tl ih =>
    intro j
    simp only [occsAtFrom]
    refine List.pairwise_append.mpr ⟨?_, ih (j + 1), ?_⟩
    · by_cases hc : i ∈ recordedOffsets p buf
      · rw [if_pos hc]
        simp
      · rw [if_neg hc]
        exact List.Pairwise.nil
    · intro a ha b hb
      by_cases hc : i ∈ recordedOffsets p buf
      · rw [if_pos hc] at ha
        have ha2 := List.mem_singleton.mp ha
        subst ha2
        exact Nat.lt_of_succ_le (mem_occsAtFrom buf i tl (j + 1) b hb).2
      · rw [if_neg hc] at ha
        cases ha

/-- Helper: membership in a concatenation over offsets. -/
theorem mem_concatMapOffsets (f : Nat → List Occ) :
    ∀ (is : List Nat) (o : Occ), o ∈ concatMapOffsets f is → ∃ i ∈ is, o ∈ f i := by
  intro is
  induction is with
  | nil =>
    intro o ho
    cases ho
  | cons i tl ih =>
    intro o ho
    simp only [concatMapOffsets] at ho
    rcases List.mem_append.mp ho with h | h
    · exact ⟨i, List.mem_cons_self i tl, h⟩
    · rcases ih o h with ⟨i2, h2, h3⟩
      exact ⟨i2, List.mem_cons_of_mem i h2, h3⟩

/-- Helper: concatenating per-offset occurrence blocks over a strictly
increasing offset list is sorted for the spec order. -/
theorem pairwise_concatMapOffsets (f : Nat → List Occ)
    (hoff : ∀ i, ∀ o ∈ f i, o.offset = i)
    (hinner : ∀ i, (f i).Pairwise (fun a b => a.patIdx < b.patIdx)) :
    ∀ (is : List Nat), is.Pairwise (· < ·) → (concatMapOffsets f is).Pairwise occLe := by
  intro is
  induction is with
  | nil =>
    intro _
    exact List.Pairwise.nil
  | cons i tl ih =>
    intro hp
    rcases List.pairwise_cons.mp hp with ⟨hhead, htail⟩
    simp only [concatMapOffsets]
    refine List.pairwise_append.mpr ⟨?_, ih htail, ?_⟩
    · exact (hinner i).imp_of_mem (fun {a b} ha hb hlt =>
        Or.inr ⟨by rw [hoff i a ha, hoff i b hb], hlt⟩)
    · intro a ha b hb
      rcases mem_concatMapOffsets f tl b hb with ⟨i2, hi2, hbi⟩
      left
      rw [hoff i a ha, hoff i2 b hbi]
      exact hhead i2 hi2

/-- Helper: a rule's recorded occurrence list is sorted by ascending offset,
then by pattern declaration order. -/
theorem ruleOccs_pairwise (ps : List CompiledPattern) (buf : List Nat) :
    (ruleOccs ps buf).Pairwise occLe := by
  unfold ruleOccs
  refine pairwise_concatMapOffsets _ ?_ ?_ _ (List.pairwise_lt_range buf.length)
  · intro i o ho
    exact (mem_occsAtFrom buf i ps 0 o ho).1
  · intro i
    exact pairwise_occsAtFrom buf i ps 0

/-- Helper: the matched entries appear in the rule set's declared order. -/
theorem matched_names_sublist (rs : List Rule) (buf : List Nat) :
    ((scan rs buf).matched.map RuleMatch.ruleName).Sublist (rs.map Rule.name) := by
  simp only [scan]
  induction rs with
  | nil => simp
  | cons r tl ih =>
    rw [List.filterMap_cons]
    cases h : toMatch? (scanRule r buf) with
    | none =>
      rw [List.map_cons]
      exact ih.cons r.name
    | some m =>
      rw [List.map_cons, List.map_cons]
      have hname : m.ruleName = r.name := by
        rw [toMatch_scanRule_shape r buf m h]
      rw [hname]
      exact ih.cons₂ r.name

/-- C7: ScanResult ordering: matched rules appear in the rule set's declared
order; within each matched rule the occurrences are ordered by ascending byte
offset and then by pattern declaration order; and the result is identical
under every execution schedule that covers the rule set, so the ordering is
independent of execution parallelism. -/
theorem scan_result_ordering (rs : List Rule) (buf : List Nat) :
    ((scan rs buf).matched.map RuleMatch.ruleName).Sublist (rs.map Rule.name) ∧
    (∀ m ∈ (scan rs buf).matched, m.occs.Pairwise occLe) ∧
    (∀ sched, (∀ i, i < rs.length → i ∈ sched) → scanSched rs buf sched = scan rs buf) := by
  refine ⟨matched_names_sublist rs buf, ?_, ?_⟩
  · intro m hm
    simp only [scan] at hm
    rcases List.mem_filterMap.mp hm with ⟨r, _, hsome⟩
    rw [toMatch_scanRule_shape r buf m hsome]
    exact ruleOccs_pairwise r.patterns buf
  · intro sched h
    exact scanSched_eq_scan rs buf sched h

/-- A two-byte literal pattern "ab". -/
def patAB : CompiledPattern :=
  ⟨"a", .literalM [97, 98] false false, false⟩

/-- A one-byte literal pattern "b". -/
def patB : CompiledPattern :=
  ⟨"b", .literalM [98] false false, false⟩

/-- A rule with two patterns, matching when both occur. -/
def ruleTwoPat : Rule :=
  ⟨"two", [], [patAB, patB], .andE (.matchedRef "a") (.matchedRef "b")⟩

theorem scan_result_ordering_witness :
    (⟨"two", [], ruleOccs ruleTwoPat.patterns [97, 98, 98]⟩ : RuleMatch).occs.Pairwise occLe ∧
    scanSched [ruleTwoPat] [97, 98, 98] [0] = scan [ruleTwoPat] [97, 98, 98] :=
  ⟨(scan_result_ordering [ruleTwoPat] [97, 98, 98]).2.1
      ⟨"two", [], ruleOccs ruleTwoPat.patterns [97, 98, 98]⟩ (by decide),
   (scan_result_ordering [ruleTwoPat] [97, 98, 98]).2.2 [0]
      (by
        intro i hi
        simp only [List.length_cons, List.length_nil] at hi
        interval_cases i
        simp)⟩
